import Mathlib

/-!
Verification of the mcp-oda scraping/navigation core.

This file shallowly embeds the pure logic of `mcp_oda/tools.py` and
`mcp_oda/__main__.py`: the text parsers (`Parsers.parse_price`,
`Parsers.parse_relative_price`), the extraction loops
(`_scrape_search_results`, `_scrape_recipes`, `get_recipe_url`,
`add_recipe_by_index`, `_parse_recipe_json_ld`), the recipe-URL predicate
(`_is_valid_recipe_url`), the cart-mutation bounds logic (`_modify_cart`),
and the session state machine (`_assert_context`,
`_determine_context_from_url`, `go_back`, `recipes_search_next`).

Browser effects (navigation, clicks, network waits) are modelled by
explicit parameters describing their outcomes; Python strings are modelled
as `String` or `List Char`, Python floats as an explicit `PyFloat` type
over `ℚ` (IEEE-754 binary rounding is abstracted: the parsers' numeric
results are represented exactly).
-/

namespace McpOda

/-! ## Models of Python string primitives -/

/-- Characters treated as whitespace by Python's `str.strip()` /
`float()` (the ASCII whitespace characters plus the common Unicode
spaces that occur in this domain). -/
def pyIsSpace (c : Char) : Bool :=
  let n := c.toNat
  -- space, tab, newline, CR, VT, FF, the FS/GS/RS/US controls, NEL,
  -- no-break space U+00A0, ogham space U+1680, the U+2000..U+200A range
  -- (incl. thin space U+2009), line/paragraph separators U+2028/29,
  -- narrow no-break U+202F, math space U+205F, ideographic space U+3000.
  decide (n = 32 ∨ n = 9 ∨ n = 10 ∨ n = 13 ∨ n = 11 ∨ n = 12 ∨
    n = 28 ∨ n = 29 ∨ n = 30 ∨ n = 31 ∨ n = 133 ∨ n = 160 ∨ n = 5760 ∨
    (8192 ≤ n ∧ n ≤ 8202) ∨ n = 8232 ∨ n = 8233 ∨ n = 8239 ∨
    n = 8287 ∨ n = 12288)

/-- Model of `str.strip()` on a character list: drop whitespace from both ends. -/
def pyStripL (l : List Char) : List Char :=
  ((l.dropWhile pyIsSpace).reverse.dropWhile pyIsSpace).reverse

/-- Model of `str.strip()` on a `String`. -/
def pyStrip (s : String) : String :=
  String.mk (pyStripL s.data)

/-- Model of `str.strip(c)` for a single strip character (used for `url.strip("/")`). -/
def stripChar (c : Char) (l : List Char) : List Char :=
  ((l.dropWhile (· = c)).reverse.dropWhile (· = c)).reverse

/-- Fuel-indexed model of Python `str.replace(pat, repl)` (leftmost,
non-overlapping). The fuel is an upper bound on the list length, making
the definition structurally recursive (hence kernel-computable); the
wrapper `replaceL` instantiates it with the exact length. For the empty
pattern Python inserts `repl` at every position, including both ends. -/
def replaceFuel (pat repl : List Char) : ℕ → List Char → List Char
  | _, [] => if pat.isEmpty then repl else []
  | 0, l => l
  | fuel + 1, c :: rest =>
    if pat ≠ [] ∧ pat.isPrefixOf (c :: rest) then
      repl ++ replaceFuel pat repl fuel ((c :: rest).drop pat.length)
    else if pat.isEmpty then
      repl ++ c :: replaceFuel pat repl fuel rest
    else
      c :: replaceFuel pat repl fuel rest

/-- Model of Python `str.replace(pat, repl)` on character lists. -/
def replaceL (pat repl l : List Char) : List Char :=
  replaceFuel pat repl l.length l

/-- Model of Python `str.split(sep)` for a one-character separator:
keeps empty chunks, and the split of the empty string is `[[]]`. -/
def pySplitChar (sep : Char) : List Char → List (List Char)
  | [] => [[]]
  | c :: rest =>
    match pySplitChar sep rest with
    | [] => [[]]
    | h :: t => if c = sep then [] :: h :: t else (c :: h) :: t

/-- Model of Python substring containment (`sub in s`). -/
def containsSub (sub : List Char) : List Char → Bool
  | [] => sub.isEmpty
  | c :: rest => sub.isPrefixOf (c :: rest) || containsSub sub rest

/-- Substring containment on `String`s. -/
def strContains (s sub : String) : Bool :=
  containsSub sub.data s.data

/-- Numeric value of a digit list (most significant first). -/
def natOfDigits (l : List Char) : ℕ :=
  l.foldl (fun n c => 10 * n + (c.toNat - 48)) 0

/-! ## Model of Python `float` values and `float(str)` parsing -/

/-- A Python float, with the numeric payload represented exactly as a
rational (IEEE-754 rounding abstracted). -/
inductive PyFloat where
  | finite (q : ℚ)
  | inf
  | ninf
  | nan
deriving DecidableEq, Repr

/-- Negation of a Python float (for a leading `-` sign). -/
def PyFloat.negF : PyFloat → PyFloat
  | .finite q => .finite (-q)
  | .inf => .ninf
  | .ninf => .inf
  | .nan => .nan

/-- Validity of underscore placement in a Python numeric literal, after
the first character: each `_` must be flanked by digits. -/
def underscoreAux : Char → List Char → Bool
  | _, [] => true
  | prev, c :: rest =>
    if c = '_' then
      match rest with
      | [] => false
      | d :: rest2 => prev.isDigit && d.isDigit && underscoreAux d rest2
    else underscoreAux c rest

/-- Validity of underscore placement in a Python numeric literal. -/
def underscoresOk : List Char → Bool
  | [] => true
  | c :: rest => if c = '_' then false else underscoreAux c rest

/-- Parse the mantissa of a float literal: `digits`, `digits.digits`,
`digits.` or `.digits` (at least one digit overall). -/
def parseMantissa (l : List Char) : Option ℚ :=
  let intPart := l.takeWhile (· ≠ '.')
  match l.dropWhile (· ≠ '.') with
  | [] =>
    if !intPart.isEmpty && intPart.all Char.isDigit then
      some (natOfDigits intPart : ℚ)
    else none
  | _ :: frac =>
    if !(intPart ++ frac).isEmpty && intPart.all Char.isDigit
        && frac.all Char.isDigit then
      some ((natOfDigits intPart : ℚ) + (natOfDigits frac : ℚ) / (10 : ℚ) ^ frac.length)
    else none

/-- Parse an unsigned exponent digit string. -/
def parseExpDigits (l : List Char) : Option ℤ :=
  if !l.isEmpty && l.all Char.isDigit then some (natOfDigits l : ℤ) else none

/-- Parse a float-literal exponent (optional sign, then digits). -/
def parseExpPart : List Char → Option ℤ
  | '+' :: ds => parseExpDigits ds
  | '-' :: ds => (parseExpDigits ds).map (fun z => -z)
  | ds => parseExpDigits ds

/-- Parse an unsigned decimal float literal with optional exponent,
after underscore validation and removal. -/
def parseDecimal (l0 : List Char) : Option ℚ :=
  if !underscoresOk l0 then none
  else
    let l := l0.filter (· ≠ '_')
    let mant := l.takeWhile (fun c => c ≠ 'e' && c ≠ 'E')
    match l.dropWhile (fun c => c ≠ 'e' && c ≠ 'E') with
    | [] => parseMantissa mant
    | _ :: ex =>
      match parseMantissa mant, parseExpPart ex with
      | some m, some e => some (m * (10 : ℚ) ^ e)
      | _, _ => none

/-- Parse an unsigned float literal body: the named values `inf`,
`infinity`, `nan` (case-insensitive) or a decimal literal. -/
def pyFloatCore (l : List Char) : Option PyFloat :=
  let low := l.map Char.toLower
  if low = "inf".data || low = "infinity".data then some .inf
  else if low = "nan".data then some .nan
  else (parseDecimal l).map .finite

/-- Model of Python `float(s)`: strip whitespace, optional sign, body.
`none` models a `ValueError`. -/
def pyFloatOfChars (l0 : List Char) : Option PyFloat :=
  match pyStripL l0 with
  | [] => pyFloatCore []
  | c :: r =>
    if c = '+' then pyFloatCore r
    else if c = '-' then (pyFloatCore r).map PyFloat.negF
    else pyFloatCore (c :: r)

/-! ## `Parsers.parse_price` and `Parsers.parse_relative_price`
(tools.py lines 78-108) -/

/-- The cleaning pipeline inside `Parsers.parse_price`: remove `"kr"`,
then `"\xa0"`, then `" "`, map `","` to `"."`, and strip. -/
def priceClean (s : String) : List Char :=
  pyStripL (replaceL [','] ['.']
    (replaceL [' '] [] (replaceL ['\xA0'] []
      (replaceL ['k', 'r'] [] s.data))))

/-- Embedding of `Parsers.parse_price`: on falsy input return `0.0`;
otherwise clean the text and apply `float(...)`; a `ValueError`
(modelled by `none`) yields `0.0`. -/
def parse_price (text : Option String) : PyFloat :=
  match text with
  | none => .finite 0
  | some s =>
    if s.data.isEmpty then .finite 0
    else
      match pyFloatOfChars (priceClean s) with
      | some v => v
      | none => .finite 0

/-- Embedding of `Parsers.parse_relative_price`: on falsy input return
`(0.0, "")`; otherwise replace `"\xa0"` and `" "` by spaces, split
on `"/"`, parse the first chunk as a price, and if a second chunk exists
return `"/" ++ strip(second chunk)` as the unit, else `""`. (The
source's `except (ValueError, IndexError)` branch is unreachable:
`split` always yields at least one chunk and `parse_price` never
raises.) -/
def parse_relative_price (text : Option String) : PyFloat × String :=
  match text with
  | none => (.finite 0, "")
  | some s =>
    if s.data.isEmpty then (.finite 0, "")
    else
      let parts := pySplitChar '/' (replaceL [' '] [' ']
        (replaceL ['\xA0'] [' '] s.data))
      let pricePart := parts.headD []
      let unitPart :=
        match parts with
        | _ :: u :: _ => "/" ++ String.mk (pyStripL u)
        | _ => ""
      (parse_price (some (String.mk pricePart)), unitPart)

/-! ## Helper lemmas on the Python-string model -/

theorem isDigit_toNat_bounds (c : Char) (h : c.isDigit = true) :
    48 ≤ c.toNat ∧ c.toNat ≤ 57 := by
  simp [Char.isDigit] at h
  obtain ⟨h1, h2⟩ := h
  exact ⟨by exact_mod_cast h1, by exact_mod_cast h2⟩

theorem pyIsSpace_eq_false (c : Char) (h1 : 44 ≤ c.toNat) (h2 : c.toNat ≤ 57) :
    pyIsSpace c = false := by
  simp only [pyIsSpace, decide_eq_false_iff_not]
  omega

theorem toLower_eq_self_of_isDigit (c : Char) (h : c.isDigit = true) :
    c.toLower = c := by
  have hb := isDigit_toNat_bounds c h
  have hn : ¬(c.toNat ≥ 65 ∧ c.toNat ≤ 90) := by omega
  simp [Char.toLower, hn]

theorem ne_of_isDigit {c : Char} (d : Char) (h : c.isDigit = true)
    (hd : d.isDigit = false) : c ≠ d := by
  intro e
  rw [e, hd] at h
  exact Bool.false_ne_true h

theorem dropWhile_eq_self_of {p : Char → Bool} {l : List Char}
    (h : ∀ c ∈ l, p c = false) : l.dropWhile p = l := by
  cases l with
  | nil => rfl
  | cons c rest => simp [List.dropWhile, h c (List.mem_cons_self c rest)]

theorem pyStripL_eq_self {l : List Char} (h : ∀ c ∈ l, pyIsSpace c = false) :
    pyStripL l = l := by
  unfold pyStripL
  rw [dropWhile_eq_self_of h]
  rw [dropWhile_eq_self_of (fun c hc => h c (List.mem_reverse.mp hc))]
  exact List.reverse_reverse l

theorem takeWhile_append_of {p : Char → Bool} (x y : List Char)
    (h : ∀ c ∈ x, p c = true) : (x ++ y).takeWhile p = x ++ y.takeWhile p := by
  induction x with
  | nil => rfl
  | cons c rest ih =>
    simp only [List.cons_append, List.takeWhile_cons,
      h c (List.mem_cons_self c rest), if_true]
    rw [ih (fun d hd => h d (List.mem_cons_of_mem c hd))]

theorem dropWhile_append_of {p : Char → Bool} (x y : List Char)
    (h : ∀ c ∈ x, p c = true) : (x ++ y).dropWhile p = y.dropWhile p := by
  induction x with
  | nil => rfl
  | cons c rest ih =>
    simp only [List.cons_append, List.dropWhile_cons,
      h c (List.mem_cons_self c rest), if_true]
    exact ih (fun d hd => h d (List.mem_cons_of_mem c hd))

theorem takeWhile_eq_self_of {p : Char → Bool} {l : List Char}
    (h : ∀ c ∈ l, p c = true) : l.takeWhile p = l := by
  have := takeWhile_append_of l [] h
  simpa using this

theorem dropWhile_eq_nil_of {p : Char → Bool} {l : List Char}
    (h : ∀ c ∈ l, p c = true) : l.dropWhile p = [] := by
  have := dropWhile_append_of l [] h
  simpa using this

theorem isPrefixOf_append_self (p t : List Char) :
    p.isPrefixOf (p ++ t) = true := by
  induction p with
  | nil => simp [List.isPrefixOf]
  | cons c rest ih => simp [List.isPrefixOf, ih]

theorem isPrefixOf_cons_of_ne (c x : Char) (pr rest : List Char) (h : x ≠ c) :
    List.isPrefixOf (c :: pr) (x :: rest) = false := by
  simp only [List.isPrefixOf, Bool.and_eq_false_iff, beq_eq_false_iff_ne, ne_eq]
  exact Or.inl (fun e => h e.symm)

theorem replaceFuel_del_single (c : Char) (l : List Char) (fuel : ℕ)
    (h : l.length ≤ fuel) :
    replaceFuel [c] [] fuel l = l.filter (fun x => decide (x ≠ c)) := by
  induction l generalizing fuel with
  | nil => cases fuel <;> simp [replaceFuel]
  | cons x rest ih =>
    cases fuel with
    | zero => simp at h
    | succ f =>
      have hr : rest.length ≤ f := by simpa using h
      by_cases hx : x = c
      · subst hx
        have hp : List.isPrefixOf [x] (x :: rest) = true := by
          simp [List.isPrefixOf]
        simp only [replaceFuel, hp, ne_eq, not_true_eq_false, and_true,
          List.length_cons]
        rw [if_pos (by simp)]
        simpa [List.filter] using ih f hr
      · have hp := isPrefixOf_cons_of_ne c x [] rest hx
        simp only [replaceFuel, hp]
        rw [if_neg (by simp [hp]), if_neg (by simp)]
        simpa [List.filter, hx] using ih f hr

theorem replaceL_del_single (c : Char) (l : List Char) :
    replaceL [c] [] l = l.filter (fun x => decide (x ≠ c)) :=
  replaceFuel_del_single c l l.length le_rfl

theorem replaceFuel_map_single (c d : Char) (l : List Char) (fuel : ℕ)
    (h : l.length ≤ fuel) :
    replaceFuel [c] [d] fuel l = l.map (fun x => if x = c then d else x) := by
  induction l generalizing fuel with
  | nil => cases fuel <;> simp [replaceFuel]
  | cons x rest ih =>
    cases fuel with
    | zero => simp at h
    | succ f =>
      have hr : rest.length ≤ f := by simpa using h
      by_cases hx : x = c
      · subst hx
        have hp : List.isPrefixOf [x] (x :: rest) = true := by
          simp [List.isPrefixOf]
        simp only [replaceFuel, hp]
        rw [if_pos (by simp)]
        simpa using ih f hr
      · have hp := isPrefixOf_cons_of_ne c x [] rest hx
        simp only [replaceFuel]
        rw [if_neg (by simp [hp]), if_neg (by simp)]
        simpa [hx] using ih f hr

theorem replaceL_map_single (c d : Char) (l : List Char) :
    replaceL [c] [d] l = l.map (fun x => if x = c then d else x) :=
  replaceFuel_map_single c d l l.length le_rfl

theorem replaceFuel_append_pat (p0 : Char) (pr repl l : List Char) (fuel : ℕ)
    (h : ∀ x ∈ l, x ≠ p0) (hf : (l ++ p0 :: pr).length ≤ fuel) :
    replaceFuel (p0 :: pr) repl fuel (l ++ p0 :: pr) = l ++ repl := by
  induction l generalizing fuel with
  | nil =>
    cases fuel with
    | zero => simp at hf
    | succ f =>
      have hpre : (p0 :: pr).isPrefixOf (p0 :: pr) = true := by
        have := isPrefixOf_append_self (p0 :: pr) []
        rwa [List.append_nil] at this
      simp only [List.nil_append, replaceFuel]
      rw [if_pos ⟨by simp, hpre⟩]
      have hdrop : (p0 :: pr).drop (p0 :: pr).length = ([] : List Char) := by
        simp
      rw [hdrop]
      cases f <;> simp [replaceFuel]
  | cons x rest ih =>
    cases fuel with
    | zero => simp at hf
    | succ f =>
      have hx : x ≠ p0 := h x (List.mem_cons_self x rest)
      have hp := isPrefixOf_cons_of_ne p0 x pr (rest ++ p0 :: pr) hx
      simp only [List.cons_append, replaceFuel, List.append_eq]
      rw [if_neg (by simp [hp]), if_neg (by simp)]
      rw [ih f (fun y hy => h y (List.mem_cons_of_mem x hy))
        (by simp at hf ⊢; omega)]

theorem replaceL_append_pat (p0 : Char) (pr repl l : List Char)
    (h : ∀ x ∈ l, x ≠ p0) :
    replaceL (p0 :: pr) repl (l ++ p0 :: pr) = l ++ repl :=
  replaceFuel_append_pat p0 pr repl l _ h le_rfl

theorem underscoreAux_eq_true_of (prev : Char) {l : List Char}
    (h : ∀ c ∈ l, c ≠ '_') : underscoreAux prev l = true := by
  induction l generalizing prev with
  | nil => rfl
  | cons c rest ih =>
    have hc : c ≠ '_' := h c (List.mem_cons_self c rest)
    rw [underscoreAux.eq_def]
    simp only [if_neg hc]
    exact ih c (fun d hd => h d (List.mem_cons_of_mem c hd))

theorem underscoresOk_eq_true_of {l : List Char} (h : ∀ c ∈ l, c ≠ '_') :
    underscoresOk l = true := by
  cases l with
  | nil => rfl
  | cons c rest =>
    have hc : c ≠ '_' := h c (List.mem_cons_self c rest)
    simp only [underscoresOk, if_neg hc]
    exact underscoreAux_eq_true_of c (fun d hd => h d (List.mem_cons_of_mem c hd))

theorem pySplitChar_of_not_mem {sep : Char} {l : List Char} (h : sep ∉ l) :
    pySplitChar sep l = [l] := by
  induction l with
  | nil => rfl
  | cons c rest ih =>
    have hc : c ≠ sep := fun e => h (e ▸ List.mem_cons_self c rest)
    have hrest : sep ∉ rest := fun e => h (List.mem_cons_of_mem c e)
    simp [pySplitChar, ih hrest, hc]

theorem pySplitChar_ne_nil (sep : Char) (l : List Char) :
    pySplitChar sep l ≠ [] := by
  cases l with
  | nil => simp [pySplitChar]
  | cons c rest =>
    simp only [pySplitChar]
    match pySplitChar sep rest with
    | [] => simp
    | h :: t =>
      by_cases hc : c = sep <;> simp [hc]

theorem pySplitChar_append_sep (sep : Char) {x : List Char} (y : List Char)
    (h : sep ∉ x) : pySplitChar sep (x ++ sep :: y) = x :: pySplitChar sep y := by
  induction x with
  | nil =>
    obtain ⟨h1, t1, hy⟩ : ∃ h1 t1, pySplitChar sep y = h1 :: t1 := by
      match hcase : pySplitChar sep y with
      | [] => exact absurd hcase (pySplitChar_ne_nil sep y)
      | a :: b => exact ⟨a, b, rfl⟩
    simp [pySplitChar, hy]
  | cons c rest ih =>
    have hc : c ≠ sep := fun e => h (e ▸ List.mem_cons_self c rest)
    have hrest : sep ∉ rest := fun e => h (List.mem_cons_of_mem c e)
    simp only [List.cons_append, pySplitChar, List.append_eq, ih hrest,
      if_neg hc]

theorem map_sub_of_not_mem (c d : Char) {l : List Char} (h : c ∉ l) :
    l.map (fun x => if x = c then d else x) = l := by
  induction l with
  | nil => rfl
  | cons x rest ih =>
    have hx : x ≠ c := fun e => h (e ▸ List.mem_cons_self x rest)
    have hrest : c ∉ rest := fun e => h (List.mem_cons_of_mem x e)
    simp [if_neg hx, ih hrest]

theorem not_mem_map_if (c d e : Char) {l : List Char} (he : e ∉ l)
    (hd : e ≠ d) : e ∉ l.map (fun x => if x = c then d else x) := by
  intro hm
  obtain ⟨x, hx, hfx⟩ := List.mem_map.mp hm
  by_cases hxc : x = c
  · rw [if_pos hxc] at hfx
    exact hd hfx.symm
  · rw [if_neg hxc] at hfx
    exact he (hfx ▸ hx)

theorem forall_ne_of_digits {l : List Char} (h : ∀ c ∈ l, c.isDigit = true)
    (d : Char) (hd : d.isDigit = false) : ∀ c ∈ l, c ≠ d :=
  fun c hc => ne_of_isDigit d (h c hc) hd

/-- Evaluating the `parse_price` cleaning pipeline on a string of the
shape `"<digits>,<digits>\xa0kr"`: the result is `"<digits>.<digits>"`. -/
theorem priceClean_decimal (a b : List Char)
    (hda : ∀ c ∈ a, c.isDigit = true) (hdb : ∀ c ∈ b, c.isDigit = true) :
    priceClean (String.mk (a ++ ',' :: b ++ ['\xA0', 'k', 'r'])) =
      a ++ '.' :: b := by
  have hka : ∀ x ∈ (a ++ ',' :: b) ++ ['\xA0'], x ≠ 'k' := by
    intro x hx
    rcases List.mem_append.mp hx with hx1 | hx2
    · rcases List.mem_append.mp hx1 with hxa | hxb
      · exact ne_of_isDigit 'k' (hda x hxa) (by decide)
      · rcases List.mem_cons.mp hxb with rfl | hxb2
        · decide
        · exact ne_of_isDigit 'k' (hdb x hxb2) (by decide)
    · rcases List.mem_cons.mp hx2 with rfl | h2
      · decide
      · simp at h2
  have ha_nbsp : a.filter (fun x => decide (x ≠ '\xA0')) = a :=
    List.filter_eq_self.mpr (fun x hx => by
      simpa using ne_of_isDigit '\xA0' (hda x hx) (by decide))
  have hb_nbsp : b.filter (fun x => decide (x ≠ '\xA0')) = b :=
    List.filter_eq_self.mpr (fun x hx => by
      simpa using ne_of_isDigit '\xA0' (hdb x hx) (by decide))
  have ha_sp : a.filter (fun x => decide (x ≠ ' ')) = a :=
    List.filter_eq_self.mpr (fun x hx => by
      simpa using ne_of_isDigit ' ' (hda x hx) (by decide))
  have hb_sp : b.filter (fun x => decide (x ≠ ' ')) = b :=
    List.filter_eq_self.mpr (fun x hx => by
      simpa using ne_of_isDigit ' ' (hdb x hx) (by decide))
  have step1 : replaceL ['k', 'r'] [] (a ++ ',' :: b ++ ['\xA0', 'k', 'r']) =
      (a ++ ',' :: b) ++ ['\xA0'] := by
    have e1 : a ++ ',' :: b ++ ['\xA0', 'k', 'r'] =
        ((a ++ ',' :: b) ++ ['\xA0']) ++ 'k' :: ['r'] := by simp
    rw [e1, replaceL_append_pat 'k' ['r'] [] _ hka, List.append_nil]
  have step2 : replaceL ['\xA0'] [] ((a ++ ',' :: b) ++ ['\xA0']) =
      a ++ ',' :: b := by
    rw [replaceL_del_single, List.filter_append, List.filter_append, ha_nbsp,
      List.filter_cons_of_pos (by decide), hb_nbsp]
    simp
  have step3 : replaceL [' '] [] (a ++ ',' :: b) = a ++ ',' :: b := by
    rw [replaceL_del_single, List.filter_append, ha_sp,
      List.filter_cons_of_pos (by decide), hb_sp]
  have step4 : replaceL [','] ['.'] (a ++ ',' :: b) = a ++ '.' :: b := by
    rw [replaceL_map_single, List.map_append, List.map_cons,
      map_sub_of_not_mem ',' '.' (fun hm =>
        absurd rfl (ne_of_isDigit ',' (hda ',' hm) (by decide))),
      map_sub_of_not_mem ',' '.' (fun hm =>
        absurd rfl (ne_of_isDigit ',' (hdb ',' hm) (by decide))),
      if_pos rfl]
  have hdata : (String.mk (a ++ ',' :: b ++ ['\xA0', 'k', 'r'])).data =
      a ++ ',' :: b ++ ['\xA0', 'k', 'r'] := rfl
  unfold priceClean
  rw [hdata, step1, step2, step3, step4]
  exact pyStripL_eq_self (by
    intro x hx
    rcases List.mem_append.mp hx with hxa | hxb
    · obtain ⟨h1, h2⟩ := isDigit_toNat_bounds x (hda x hxa)
      exact pyIsSpace_eq_false x (by omega) h2
    · rcases List.mem_cons.mp hxb with rfl | hxb2
      · exact pyIsSpace_eq_false '.' (by decide) (by decide)
      · obtain ⟨h1, h2⟩ := isDigit_toNat_bounds x (hdb x hxb2)
        exact pyIsSpace_eq_false x (by omega) h2)

/-- Evaluating the `float()` model on `"<digits>.<digits>"` with a
nonempty integer part. -/
theorem pyFloatOfChars_decimal (a b : List Char) (ha : a ≠ [])
    (hda : ∀ c ∈ a, c.isDigit = true) (hdb : ∀ c ∈ b, c.isDigit = true) :
    pyFloatOfChars (a ++ '.' :: b) =
      some (.finite ((natOfDigits a : ℚ) +
        (natOfDigits b : ℚ) / (10 : ℚ) ^ b.length)) := by
  have hspace : ∀ x ∈ a ++ '.' :: b, pyIsSpace x = false := by
    intro x hx
    rcases List.mem_append.mp hx with hxa | hxb
    · obtain ⟨h1, h2⟩ := isDigit_toNat_bounds x (hda x hxa)
      exact pyIsSpace_eq_false x (by omega) h2
    · rcases List.mem_cons.mp hxb with rfl | hxb2
      · exact pyIsSpace_eq_false '.' (by decide) (by decide)
      · obtain ⟨h1, h2⟩ := isDigit_toNat_bounds x (hdb x hxb2)
        exact pyIsSpace_eq_false x (by omega) h2
  obtain ⟨c, a2, rfl⟩ := List.exists_cons_of_ne_nil ha
  have hcd : c.isDigit = true := hda c (List.mem_cons_self c a2)
  have hstrip : pyStripL ((c :: a2) ++ '.' :: b) = (c :: a2) ++ '.' :: b :=
    pyStripL_eq_self hspace
  have hcore : pyFloatCore ((c :: a2) ++ '.' :: b) =
      some (.finite ((natOfDigits (c :: a2) : ℚ) +
        (natOfDigits b : ℚ) / (10 : ℚ) ^ b.length)) := by
    have hlow_head : c.toLower = c := toLower_eq_self_of_isDigit c hcd
    have hne_inf : (((c :: a2) ++ '.' :: b).map Char.toLower = "inf".data) =
        False := by
      simp only [List.cons_append, List.map_cons, eq_iff_iff, iff_false]
      intro hm
      have : c.toLower = 'i' := by
        have := congrArg (fun l => l.headD ' ') hm
        simpa using this
      rw [hlow_head] at this
      exact ne_of_isDigit 'i' hcd (by decide) this
    have hne_infinity :
        (((c :: a2) ++ '.' :: b).map Char.toLower = "infinity".data) =
        False := by
      simp only [List.cons_append, List.map_cons, eq_iff_iff, iff_false]
      intro hm
      have : c.toLower = 'i' := by
        have := congrArg (fun l => l.headD ' ') hm
        simpa using this
      rw [hlow_head] at this
      exact ne_of_isDigit 'i' hcd (by decide) this
    have hne_nan : (((c :: a2) ++ '.' :: b).map Char.toLower = "nan".data) =
        False := by
      simp only [List.cons_append, List.map_cons, eq_iff_iff, iff_false]
      intro hm
      have : c.toLower = 'n' := by
        have := congrArg (fun l => l.headD ' ') hm
        simpa using this
      rw [hlow_head] at this
      exact ne_of_isDigit 'n' hcd (by decide) this
    have hdec : parseDecimal ((c :: a2) ++ '.' :: b) =
        some ((natOfDigits (c :: a2) : ℚ) +
          (natOfDigits b : ℚ) / (10 : ℚ) ^ b.length) := by
      have hall : ∀ x ∈ (c :: a2) ++ '.' :: b, x.isDigit = true ∨ x = '.' := by
        intro x hx
        rcases List.mem_append.mp hx with hxa | hxb
        · exact Or.inl (hda x hxa)
        · rcases List.mem_cons.mp hxb with rfl | hxb2
          · exact Or.inr rfl
          · exact Or.inl (hdb x hxb2)
      have hu : underscoresOk ((c :: a2) ++ '.' :: b) = true := by
        apply underscoresOk_eq_true_of
        intro x hx
        rcases hall x hx with hd | rfl
        · exact ne_of_isDigit '_' hd (by decide)
        · decide
      have hfilter : ((c :: a2) ++ '.' :: b).filter
          (fun x => decide (x ≠ '_')) = (c :: a2) ++ '.' :: b := by
        apply List.filter_eq_self.mpr
        intro x hx
        rcases hall x hx with hd | rfl
        · simpa using ne_of_isDigit '_' hd (by decide)
        · decide
      have hnoE : ∀ x ∈ (c :: a2) ++ '.' :: b,
          (decide (x ≠ 'e') && decide (x ≠ 'E')) = true := by
        intro x hx
        rcases hall x hx with hd | rfl
        · simp [ne_of_isDigit 'e' hd (by decide),
            ne_of_isDigit 'E' hd (by decide)]
        · decide
      have htake := takeWhile_eq_self_of hnoE
      have hdrop := dropWhile_eq_nil_of hnoE
      have hmant : parseMantissa ((c :: a2) ++ '.' :: b) =
          some ((natOfDigits (c :: a2) : ℚ) +
            (natOfDigits b : ℚ) / (10 : ℚ) ^ b.length) := by
        have hnoDotA : ∀ x ∈ c :: a2, (decide (x ≠ '.')) = true := by
          intro x hx
          simpa using ne_of_isDigit '.' (hda x hx) (by decide)
        have htakeDot : ((c :: a2) ++ '.' :: b).takeWhile
            (fun x => decide (x ≠ '.')) = c :: a2 := by
          rw [takeWhile_append_of _ _ hnoDotA]
          simp [List.takeWhile_cons]
        have hdropDot : ((c :: a2) ++ '.' :: b).dropWhile
            (fun x => decide (x ≠ '.')) = '.' :: b := by
          rw [dropWhile_append_of _ _ hnoDotA]
          simp [List.dropWhile_cons]
        have hallA : (c :: a2).all Char.isDigit = true :=
          List.all_eq_true.mpr (fun x hx => hda x hx)
        have hallB : b.all Char.isDigit = true :=
          List.all_eq_true.mpr (fun x hx => hdb x hx)
        simp only [parseMantissa, htakeDot, hdropDot, hallA, hallB,
          List.isEmpty_eq_true, Bool.and_true]
        rw [if_pos (by simp)]
      simp only [parseDecimal, hu, Bool.not_true, Bool.false_eq_true,
        if_false, hfilter, htake, hdrop, hmant]
    simp only [pyFloatCore, hne_inf, hne_infinity, hne_nan, hdec]
    simp
  have hplus : c ≠ '+' := ne_of_isDigit '+' hcd (by decide)
  have hminus : c ≠ '-' := ne_of_isDigit '-' hcd (by decide)
  simp only [pyFloatOfChars, List.cons_append] at hstrip ⊢
  rw [hstrip]
  simp only [if_neg hplus, if_neg hminus]
  simpa using hcore

/-- C4: `parse_price` is a total, deterministic function (a Lean `def`)
from optional strings to numbers: every string of the shape
`"<int>,<int>\xa0kr"` maps to the decimal number obtained by dropping
`kr` and spaces and mapping the decimal comma to a dot; `None`, the
empty string, and any input whose cleaning does not yield a parseable
number map to exactly `0.0`, and no case raises. -/
theorem C4_parse_price :
    (∀ a b : List Char, a ≠ [] → b ≠ [] →
      (∀ c ∈ a, c.isDigit = true) → (∀ c ∈ b, c.isDigit = true) →
        parse_price (some (String.mk (a ++ ',' :: b ++ ['\xA0', 'k', 'r']))) =
          .finite ((natOfDigits a : ℚ) +
            (natOfDigits b : ℚ) / (10 : ℚ) ^ b.length)) ∧
    parse_price none = .finite 0 ∧
    parse_price (some "") = .finite 0 ∧
    (∀ s : String, pyFloatOfChars (priceClean s) = none →
      parse_price (some s) = .finite 0) := by
  refine ⟨?_, rfl, rfl, ?_⟩
  · intro a b ha hb hda hdb
    have hclean := priceClean_decimal a b hda hdb
    have hfloat := pyFloatOfChars_decimal a b ha hda hdb
    have hne : (String.mk (a ++ ',' :: b ++ ['\xA0', 'k', 'r'])).data.isEmpty =
        false := by
      obtain ⟨c, a2, rfl⟩ := List.exists_cons_of_ne_nil ha
      rfl
    simp only [parse_price, hne, Bool.false_eq_true, if_false, hclean, hfloat]
  · intro s hnone
    simp only [parse_price, hnone]
    by_cases he : s.data.isEmpty <;> simp [he]

/-- Witness for C4 at the concrete input `"61,80\xa0kr"`. -/
theorem C4_parse_price_witness :
    parse_price (some (String.mk
      (['6', '1'] ++ ',' :: ['8', '0'] ++ ['\xA0', 'k', 'r']))) =
      .finite ((61 : ℚ) + (80 : ℚ) / (10 : ℚ) ^ 2) := by
  have h := C4_parse_price.1 ['6', '1'] ['8', '0']
    (by decide) (by decide) (by decide) (by decide)
  simpa [natOfDigits] using h

/-- C5: `parse_relative_price` is total and deterministic: a string of
the shape `"<price> kr /<unit>"` maps to the pair
`(parse_price "<price> kr ", "/" ++ strip(<unit>))`; a nonempty string
with no `/` yields unit `""`; `None` and `""` yield `(0.0, "")`. -/
theorem C5_parse_relative_price :
    (∀ p u : List Char,
      '/' ∉ p → '/' ∉ u → '\xA0' ∉ p → '\xA0' ∉ u →
      ' ' ∉ p → ' ' ∉ u →
      parse_relative_price
          (some (String.mk (p ++ ' ' :: 'k' :: 'r' :: ' ' :: '/' :: u))) =
        (parse_price (some (String.mk (p ++ [' ', 'k', 'r', ' ']))),
          "/" ++ String.mk (pyStripL u))) ∧
    (∀ s : String, s.data ≠ [] → '/' ∉ s.data →
      (parse_relative_price (some s)).2 = "") ∧
    parse_relative_price none = (.finite 0, "") ∧
    parse_relative_price (some "") = (.finite 0, "") := by
  refine ⟨?_, ?_, rfl, rfl⟩
  · intro p u hp hu hpn hun hpt hut
    have hne : (String.mk
        (p ++ ' ' :: 'k' :: 'r' :: ' ' :: '/' :: u)).data.isEmpty = false := by
      cases p <;> rfl
    have hmem1 : '\xA0' ∉ p ++ ' ' :: 'k' :: 'r' :: ' ' :: '/' :: u := by
      intro hm
      rcases List.mem_append.mp hm with h1 | h2
      · exact hpn h1
      · simp only [List.mem_cons] at h2
        rcases h2 with h | h | h | h | h | h
        all_goals first
          | exact absurd h (by decide)
          | exact hun h
    have r1 : replaceL ['\xA0'] [' ']
        (p ++ ' ' :: 'k' :: 'r' :: ' ' :: '/' :: u) =
        p ++ ' ' :: 'k' :: 'r' :: ' ' :: '/' :: u := by
      rw [replaceL_map_single, map_sub_of_not_mem _ _ hmem1]
    have hmem2 : ' ' ∉ p ++ ' ' :: 'k' :: 'r' :: ' ' :: '/' :: u := by
      intro hm
      rcases List.mem_append.mp hm with h1 | h2
      · exact hpt h1
      · simp only [List.mem_cons] at h2
        rcases h2 with h | h | h | h | h | h
        all_goals first
          | exact absurd h (by decide)
          | exact hut h
    have r2 : replaceL [' '] [' ']
        (p ++ ' ' :: 'k' :: 'r' :: ' ' :: '/' :: u) =
        p ++ ' ' :: 'k' :: 'r' :: ' ' :: '/' :: u := by
      rw [replaceL_map_single, map_sub_of_not_mem _ _ hmem2]
    have hslash : '/' ∉ p ++ [' ', 'k', 'r', ' '] := by
      intro hm
      rcases List.mem_append.mp hm with h1 | h2
      · exact hp h1
      · simp at h2
    have e1 : p ++ ' ' :: 'k' :: 'r' :: ' ' :: '/' :: u =
        (p ++ [' ', 'k', 'r', ' ']) ++ '/' :: u := by simp
    have hsplit : pySplitChar '/'
        (p ++ ' ' :: 'k' :: 'r' :: ' ' :: '/' :: u) =
        (p ++ [' ', 'k', 'r', ' ']) :: [u] := by
      rw [e1, pySplitChar_append_sep '/' u hslash, pySplitChar_of_not_mem hu]
    simp only [parse_relative_price, hne, Bool.false_eq_true, if_false,
      r1, r2, hsplit, List.headD_cons]
  · intro s hs hslash
    have hne : s.data.isEmpty = false := by
      cases hd : s.data with
      | nil => exact absurd hd hs
      | cons c t => rfl
    have hm1 : '/' ∉ (replaceL ['\xA0'] [' '] s.data) := by
      rw [replaceL_map_single]
      exact not_mem_map_if '\xA0' ' ' '/' hslash (by decide)
    have hm2 : '/' ∉ (replaceL [' '] [' ']
        (replaceL ['\xA0'] [' '] s.data)) := by
      rw [replaceL_map_single]
      exact not_mem_map_if ' ' ' ' '/' hm1 (by decide)
    simp only [parse_relative_price, hne, Bool.false_eq_true, if_false,
      pySplitChar_of_not_mem hm2]

/-- Witness for C5 at the concrete input `"61,80 kr /l"`. -/
theorem C5_parse_relative_price_witness :
    parse_relative_price (some (String.mk
      (['6', '1', ',', '8', '0'] ++ ' ' :: 'k' :: 'r' :: ' ' :: '/' :: ['l']))) =
      (parse_price (some (String.mk
        (['6', '1', ',', '8', '0'] ++ [' ', 'k', 'r', ' ']))),
        "/" ++ String.mk (pyStripL ['l'])) :=
  C5_parse_relative_price.1 ['6', '1', ',', '8', '0'] ['l']
    (by decide) (by decide) (by decide) (by decide) (by decide) (by decide)

/-! ## Session/context state machine (`__main__.py`) -/

/-- The `PageContext` enum of `__main__.py`. -/
inductive PageContext where
  | cart
  | product_search
  | recipe_search
  | recipe_info
deriving DecidableEq, Repr

/-- The `.value` payload of each enum member. -/
def PageContext.value : PageContext → String
  | .cart => "cart"
  | .product_search => "product_search"
  | .recipe_search => "recipe_search"
  | .recipe_info => "recipe_info"

/-- How an f-string renders the optional context (Python 3.11+ formats a
`(str, Enum)` member as `PageContext.CART` etc., and `None` as `None`). -/
def pyFormatContext : Option PageContext → String
  | none => "None"
  | some .cart => "PageContext.CART"
  | some .product_search => "PageContext.PRODUCT_SEARCH"
  | some .recipe_search => "PageContext.RECIPE_SEARCH"
  | some .recipe_info => "PageContext.RECIPE_INFO"

/-- Embedding of `_determine_context_from_url` (`__main__.py` 88-97):
ordered substring checks on the URL. -/
def _determine_context_from_url (url : String) : Option PageContext :=
  if strContains url "/cart/" then some .cart
  else if strContains url "/search/products/" then some .product_search
  else if strContains url "/recipes/all/" then some .recipe_search
  else if strContains url "/recipes/" then some .recipe_info
  else none

/-- The session state held in the lifespan dictionary: the allow-list of
previously-issued page URLs (`valid_urls`, a set modelled as a
duplicate-free append list), the current `page_context`, and the main
page's current URL. -/
structure SessionState where
  validUrls : List String
  pageContext : Option PageContext
  currentUrl : String
deriving DecidableEq, Repr

/-- Embedding of `_register_page_url`: add a truthy URL to the
allow-list (set add). -/
def _register_page_url (s : SessionState) (url : String) : SessionState :=
  if url ≠ "" then
    if url ∈ s.validUrls then s
    else { s with validUrls := s.validUrls ++ [url] }
  else s

/-- Embedding of `_assert_context` (`__main__.py` 78-85): a pure guard
that raises a `ValueError` naming the expected and the actual context
when they differ, and otherwise does nothing. -/
def _assert_context (current : Option PageContext) (expected : PageContext) :
    Except String Unit :=
  if current ≠ some expected then
    .error ("Invalid page context. Expected " ++ expected.value ++
      ", but currently in " ++ pyFormatContext current ++
      ". Please navigate to the correct page first.")
  else .ok ()

/-- Embedding of the `go_back` tool (`__main__.py` 164-182). `gotoOk`
models whether `page.goto(url)` succeeds; the second component lists the
browser navigations performed (empty on the allow-list rejection, which
happens before any navigation). The navigation-failure message carries
the exception text in Python; the model keeps its fixed prefix. -/
def go_back (s : SessionState) (url : String) (gotoOk : Bool) :
    Except String SessionState × List String :=
  if url ∉ s.validUrls then
    (.error ("Untrusted URL: " ++ url ++
      ". You can only navigate to URLs returned by search tools."), [])
  else if gotoOk = false then
    (.error ("Failed to navigate to " ++ url), ["goto " ++ url])
  else
    match _determine_context_from_url url with
    | some c => (.ok { s with currentUrl := url, pageContext := some c }, ["goto " ++ url])
    | none => (.ok { s with currentUrl := url }, ["goto " ++ url])

/-- C1's wording of the URL-shape rule, written from the spec for
comparison with the source-derived `_determine_context_from_url`:
`/cart/` yields CART, otherwise `/search/products/` yields
PRODUCT_SEARCH, otherwise `/recipes/all/` yields RECIPE_SEARCH,
otherwise `/recipes/` yields RECIPE_INFO, and any other URL leaves the
context unchanged, in exactly that order. -/
def claimContextRule (ctx : Option PageContext) (u : String) :
    Option PageContext :=
  if strContains u "/cart/" then some .cart
  else if strContains u "/search/products/" then some .product_search
  else if strContains u "/recipes/all/" then some .recipe_search
  else if strContains u "/recipes/" then some .recipe_info
  else ctx

theorem claimContextRule_eq (ctx : Option PageContext) (u : String) :
    claimContextRule ctx u =
      match _determine_context_from_url u with
      | some c => some c
      | none => ctx := by
  unfold claimContextRule _determine_context_from_url
  split_ifs <;> rfl

/-- C1: `go_back` on a URL outside the session's allow-list rejects the
call with the untrusted-URL error before performing any navigation; on
an allow-listed URL with a successful navigation it navigates once and
updates the context by the ordered URL-shape rule (`/cart/` → CART,
then `/search/products/` → PRODUCT_SEARCH, then `/recipes/all/` →
RECIPE_SEARCH, then `/recipes/` → RECIPE_INFO, else unchanged). -/
theorem C1_go_back :
    (∀ (s : SessionState) (url : String) (ok : Bool), url ∉ s.validUrls →
      go_back s url ok =
        (.error ("Untrusted URL: " ++ url ++
          ". You can only navigate to URLs returned by search tools."), [])) ∧
    (∀ (s : SessionState) (url : String), url ∈ s.validUrls →
      go_back s url true =
        (.ok { s with currentUrl := url, pageContext := claimContextRule s.pageContext url },
         ["goto " ++ url])) := by
  constructor
  · intro s url ok h
    simp [go_back, h]
  · intro s url h
    rw [claimContextRule_eq]
    simp only [go_back, h, not_true_eq_false, if_false, if_neg]
    cases hd : _determine_context_from_url url <;> simp [hd]

/-- Witness for C1: a session that allow-listed one search URL rejects a
foreign URL and accepts the listed one, entering PRODUCT_SEARCH. -/
theorem C1_go_back_witness :
    go_back ⟨["https://oda.com/no/search/products/?q=melk"], some .cart, ""⟩
        "https://oda.com/evil" true =
      (.error ("Untrusted URL: " ++ "https://oda.com/evil" ++
        ". You can only navigate to URLs returned by search tools."), []) ∧
    go_back ⟨["https://oda.com/no/search/products/?q=melk"], some .cart, ""⟩
        "https://oda.com/no/search/products/?q=melk" true =
      (.ok ⟨["https://oda.com/no/search/products/?q=melk"],
        some .product_search, "https://oda.com/no/search/products/?q=melk"⟩,
       ["goto " ++ "https://oda.com/no/search/products/?q=melk"]) := by
  constructor
  · exact C1_go_back.1
      ⟨["https://oda.com/no/search/products/?q=melk"], some .cart, ""⟩
      "https://oda.com/evil" true (by decide)
  · have h := C1_go_back.2
      ⟨["https://oda.com/no/search/products/?q=melk"], some .cart, ""⟩
      "https://oda.com/no/search/products/?q=melk" (by decide)
    have hc : claimContextRule (some PageContext.cart)
        "https://oda.com/no/search/products/?q=melk" = some .product_search := by
      decide
    rw [h, hc]

/-! ## Result record types (tools.py dataclasses) -/

/-- The `SearchResult` dataclass. -/
structure SearchResult where
  index : ℕ
  name : String
  subtitle : String
  price : PyFloat
  relative_price : PyFloat
  relative_price_unit : String
deriving DecidableEq, Repr

/-- The `ProductPage` dataclass. -/
structure ProductPage where
  page_url : String
  items : List SearchResult
deriving DecidableEq, Repr

/-- The `Recipe` dataclass (constructed with the default `None` optional
fields by `_scrape_recipes`). -/
structure Recipe where
  index : ℕ
  name : String
  image_url : Option String := none
  duration : Option String := none
  difficulty : Option String := none
deriving DecidableEq, Repr

/-- The `RecipeFilter` dataclass. -/
structure RecipeFilter where
  id : String
  name : String
  count : ℤ
  category : String
deriving DecidableEq, Repr

/-- The `RecipePage` dataclass. -/
structure RecipePage where
  page_url : String
  filters : List RecipeFilter
  items : List Recipe
deriving DecidableEq, Repr

/-- Embedding of the `recipes_search_next` tool (`__main__.py` 287-292):
guard the context, then run the browser pagination (whose scraped result
is the `results` parameter) and register the returned page URL. The
third component lists the browser actions performed. -/
def recipes_search_next (s : SessionState) (results : RecipePage) :
    Except String RecipePage × SessionState × List String :=
  match _assert_context s.pageContext .recipe_search with
  | .error msg => (.error msg, s, [])
  | .ok _ =>
    (.ok results, _register_page_url s results.page_url,
      ["search_recipes_next"])

/-- C3: a state-guarded facade operation such as `recipes_search_next`
called in any context other than its required one raises a precondition
error whose message names the expected context (via its `.value`) and
the actual context; the guard `_assert_context` is a pure check
(state-free by type), and on guard failure the operation leaves the
session unchanged and performs no browser action. -/
theorem C3_context_guard :
    (∀ (current : Option PageContext) (expected : PageContext),
      current ≠ some expected →
      _assert_context current expected = .error
        ("Invalid page context. Expected " ++ expected.value ++
         ", but currently in " ++ pyFormatContext current ++
         ". Please navigate to the correct page first.")) ∧
    (∀ (s : SessionState) (r : RecipePage) (c : PageContext),
      s.pageContext = some c → c ≠ .recipe_search →
      recipes_search_next s r =
        (.error ("Invalid page context. Expected " ++
           PageContext.value .recipe_search ++ ", but currently in " ++
           pyFormatContext (some c) ++
           ". Please navigate to the correct page first."),
         s, [])) := by
  constructor
  · intro current expected h
    simp [_assert_context, h]
  · intro s r c hc hne
    have hguard : s.pageContext ≠ some PageContext.recipe_search := by
      rw [hc]
      exact fun e => hne (Option.some.inj e)
    simp [recipes_search_next, _assert_context, hguard, hc]
    rw [if_neg hne]

/-- Witness for C3: calling `recipes_search_next` while the context is
CART produces the precondition error naming both states and leaves the
session untouched. -/
theorem C3_context_guard_witness :
    recipes_search_next ⟨[], some .cart, ""⟩ ⟨"", [], []⟩ =
      (.error ("Invalid page context. Expected " ++
         PageContext.value .recipe_search ++ ", but currently in " ++
         pyFormatContext (some .cart) ++
         ". Please navigate to the correct page first."),
       ⟨[], some .cart, ""⟩, []) :=
  C3_context_guard.2 ⟨[], some .cart, ""⟩ ⟨"", [], []⟩ .cart rfl (by decide)

/-! ## Cart mutation (`_modify_cart`, tools.py 741-779) -/

/-- Python exception kinds relevant to the embedded code. -/
inductive PyErr where
  | indexError
  | attributeError
  | typeError
  | valueError (msg : String)
deriving DecidableEq, Repr

/-- Python list indexing `l[i]` with negative-index wraparound;
`none` models an `IndexError`. -/
def pyListGet {α : Type} (l : List α) (i : ℤ) : Option α :=
  if 0 ≤ i then l[i.toNat]?
  else if -(l.length : ℤ) ≤ i then l[((l.length : ℤ) + i).toNat]?
  else none

/-- One article card in the current page snapshot; `buttonUsable label`
models whether the labelled action button becomes visible and enabled
within the bounded wait. -/
structure CartArticle where
  buttonUsable : String → Bool

/-- The browser-outcome environment for a `_modify_cart` call:
the current article list and whether the click produces a matching
cart-endpoint network response. -/
structure CartEnv where
  articles : List CartArticle
  apiOk : Bool

/-- The part of `_modify_cart` after the target article is resolved:
require the labelled button usable, click, and require the API response;
each failure reports `false`. -/
def _modify_cart_click (env : CartEnv) (a : CartArticle) (label : String) :
    Bool :=
  if a.buttonUsable label then
    if env.apiOk then true else false
  else false

/-- Embedding of `_modify_cart`: reject `index >= len(articles)` with
`False`; otherwise resolve `articles[index]` (Python semantics, so a
negative index wraps and an index below `-len` raises `IndexError`) and
proceed against that article. -/
def _modify_cart (env : CartEnv) (index : ℤ) (label : String) :
    Except PyErr Bool :=
  if (env.articles.length : ℤ) ≤ index then .ok false
  else
    match pyListGet env.articles index with
    | none => .error .indexError
    | some a => .ok (_modify_cart_click env a label)

/-- The `Selectors.ADD_TO_CART_LABEL` constant. -/
def ADD_TO_CART_LABEL : String := "Legg til i handlekurven"

/-- The `Selectors.REMOVE_FROM_CART_LABEL` constant. -/
def REMOVE_FROM_CART_LABEL : String := "Fjern fra handlekurven"

/-- Embedding of `add_to_cart`. -/
def add_to_cart (env : CartEnv) (index : ℤ) : Except PyErr Bool :=
  _modify_cart env index ADD_TO_CART_LABEL

/-- Embedding of `remove_from_cart`. -/
def remove_from_cart (env : CartEnv) (index : ℤ) : Except PyErr Bool :=
  _modify_cart env index REMOVE_FROM_CART_LABEL

/-- C2: for every article snapshot of length `n` and every index
`i ≥ n`, both cart mutations return the failure value `False` and raise
no uncaught error (the result is `.ok false`, not `.error`). -/
theorem C2_modify_cart_out_of_range :
    ∀ (env : CartEnv) (i : ℤ), (env.articles.length : ℤ) ≤ i →
      add_to_cart env i = .ok false ∧ remove_from_cart env i = .ok false := by
  intro env i h
  constructor <;> simp [add_to_cart, remove_from_cart, _modify_cart, h]

/-- Witness for C2 on an empty article list at index 0. -/
theorem C2_modify_cart_out_of_range_witness :
    add_to_cart ⟨[], true⟩ 0 = .ok false ∧
    remove_from_cart ⟨[], true⟩ 0 = .ok false :=
  C2_modify_cart_out_of_range ⟨[], true⟩ 0 (by simp)

/-- C10: a negative index `i` with `-n ≤ i` is not treated as out of
range: the bounds check only rejects `i ≥ n`, the target resolves by
Python negative indexing to the article at position `n + i`, and the
mutation proceeds against exactly that article. -/
theorem C10_modify_cart_negative_index :
    ∀ (env : CartEnv) (i : ℤ) (label : String), i < 0 →
      -(env.articles.length : ℤ) ≤ i →
      ∃ h : ((env.articles.length : ℤ) + i).toNat < env.articles.length,
        pyListGet env.articles i =
          some (env.articles.get ⟨((env.articles.length : ℤ) + i).toNat, h⟩) ∧
        _modify_cart env i label =
          .ok (_modify_cart_click env
            (env.articles.get ⟨((env.articles.length : ℤ) + i).toNat, h⟩)
            label) := by
  intro env i label hneg hge
  have hlt : ((env.articles.length : ℤ) + i).toNat < env.articles.length := by
    omega
  have hget : pyListGet env.articles i =
      some (env.articles.get ⟨((env.articles.length : ℤ) + i).toNat, hlt⟩) := by
    unfold pyListGet
    rw [if_neg (by omega), if_pos hge]
    rw [List.getElem?_eq_getElem hlt]
    simp [List.get_eq_getElem]
  refine ⟨hlt, hget, ?_⟩
  unfold _modify_cart
  rw [if_neg (by omega), hget]

/-- Witness for C10: index `-1` against a two-article snapshot mutates
the second article. -/
theorem C10_modify_cart_negative_index_witness :
    _modify_cart ⟨[⟨fun _ => false⟩, ⟨fun _ => true⟩], true⟩ (-1)
      ADD_TO_CART_LABEL = .ok true := by
  obtain ⟨h, hget, hmod⟩ := C10_modify_cart_negative_index
    ⟨[⟨fun _ => false⟩, ⟨fun _ => true⟩], true⟩ (-1) ADD_TO_CART_LABEL
    (by norm_num) (by norm_num)
  rw [hmod]
  rfl

/-! ## Search-result extraction (`_scrape_search_results`, tools.py
351-405) -/

/-- Python truthiness of an optional string (`None` and `""` falsy). -/
def pyTruthy : Option String → Bool
  | none => false
  | some s => !s.data.isEmpty

/-- One raw card record as returned by the batched in-page evaluation:
each field is the text of the matched sub-element, or absent. (The
in-page script returns strings or null, so the per-item `try` of the
source can only be exercised by the name truthiness check modelled
below.) -/
structure RawArticle where
  name : Option String
  subtitle : Option String
  price : Option String
  rel_price : Option String
deriving DecidableEq, Repr

/-- Building one `SearchResult` from a raw card that passed the name
check, exactly as in the loop body: `name.strip()`,
`subtitle.strip() if subtitle else ""`, and the two parsers. -/
def mkSearchResult (idx : ℕ) (it : RawArticle) : SearchResult :=
  { index := idx,
    name := pyStrip (it.name.getD ""),
    subtitle := if pyTruthy it.subtitle then pyStrip (it.subtitle.getD "")
      else "",
    price := parse_price it.price,
    relative_price := (parse_relative_price it.rel_price).1,
    relative_price_unit := (parse_relative_price it.rel_price).2 }

/-- The accumulation loop of `_scrape_search_results`: skip falsy names,
and append with `index := len(results)`. -/
def _scrape_search_results_go :
    List RawArticle → List SearchResult → List SearchResult
  | [], acc => acc
  | it :: rest, acc =>
    if pyTruthy it.name then
      _scrape_search_results_go rest (acc ++ [mkSearchResult acc.length it])
    else
      _scrape_search_results_go rest acc

/-- Embedding of `_scrape_search_results` (the `items` list of the
returned `ProductPage`; the `page_url` field is a passthrough of the
current URL). -/
def _scrape_search_results (items : List RawArticle) : List SearchResult :=
  _scrape_search_results_go items []

theorem scrape_search_go_eq (items : List RawArticle)
    (acc : List SearchResult) :
    _scrape_search_results_go items acc =
      acc ++ (List.enumFrom acc.length
        (items.filter (fun it => pyTruthy it.name))).map
          (fun p => mkSearchResult p.1 p.2) := by
  induction items generalizing acc with
  | nil => simp [_scrape_search_results_go]
  | cons it rest ih =>
    by_cases h : pyTruthy it.name
    · rw [_scrape_search_results_go, if_pos h, ih]
      simp [List.filter_cons, h, List.enumFrom_cons]
    · rw [_scrape_search_results_go, if_neg h, ih]
      simp [List.filter_cons, h]

/-- The function `_scrape_search_results` keeps exactly the truthy-named cards, in
order, renumbered from 0. -/
theorem scrape_search_eq (items : List RawArticle) :
    _scrape_search_results items =
      ((items.filter (fun it => pyTruthy it.name)).enum).map
        (fun p => mkSearchResult p.1 p.2) := by
  rw [_scrape_search_results, scrape_search_go_eq]
  rfl

/-! ## Recipe extraction (`_is_valid_recipe_url`, `_scrape_recipes`,
tools.py 476-529) -/

/-- Embedding of `_is_valid_recipe_url`: strip surrounding slashes,
split on `/`; require at least 3 segments, second-to-last segment
exactly `recipes`, and a final segment starting with a digit. (The
`[] => false` arm is unreachable: after the strip the final segment is
nonempty whenever there are at least 2 segments, so Python's
`parts[-1][0]` cannot raise there.) -/
def _is_valid_recipe_url (url : String) : Bool :=
  let parts := pySplitChar '/' (stripChar '/' url.data)
  if parts.length < 3 then false
  else
    match parts.reverse with
    | last :: secondLast :: _ =>
      if secondLast ≠ "recipes".data then false
      else
        match last with
        | c :: _ => c.isDigit
        | [] => false
    | _ => false

/-- One raw link record from the batched recipe-grid scrape: the `href`
attribute and the inner text. -/
structure RawLink where
  url : Option String
  text : Option String
deriving DecidableEq, Repr

/-- The recipe-name heuristic: split the text by newline, strip each
line, keep nonempty ones, take the first, defaulting to
`"Unknown Recipe"`. -/
def firstLineName (text : Option String) : String :=
  match ((pySplitChar '\n' (text.getD "").data).map pyStripL).filter
      (fun l => !l.isEmpty) with
  | l :: _ => String.mk l
  | [] => "Unknown Recipe"

/-- The accumulation loop of `_scrape_recipes`: skip falsy or
already-seen URLs, then skip invalid ones, else record the URL as seen
and append a `Recipe` with `index := len(recipes)`. -/
def _scrape_recipes_go :
    List RawLink → List String → List Recipe → List Recipe
  | [], _, acc => acc
  | it :: rest, seen, acc =>
    match it.url with
    | none => _scrape_recipes_go rest seen acc
    | some u =>
      if u = "" ∨ u ∈ seen then _scrape_recipes_go rest seen acc
      else if _is_valid_recipe_url u = false then
        _scrape_recipes_go rest seen acc
      else
        _scrape_recipes_go rest (seen ++ [u])
          (acc ++ [{ index := acc.length, name := firstLineName it.text }])

/-- Embedding of `_scrape_recipes`. -/
def _scrape_recipes (items : List RawLink) : List Recipe :=
  _scrape_recipes_go items [] []

/-- A link is keepable when its `href` is present and passes
`_is_valid_recipe_url`. -/
def linkKeepable (it : RawLink) : Bool :=
  match it.url with
  | some u => _is_valid_recipe_url u
  | none => false

/-- C7's wording of the structural predicate, written from the spec for
comparison with the source-derived `_is_valid_recipe_url`: after
stripping surrounding slashes and splitting on `/`, the path has at
least 3 segments, the second-to-last segment is exactly `recipes`, and
the final segment begins with a digit. -/
def claimValidRecipeUrl (url : String) : Bool :=
  let parts := pySplitChar '/' (stripChar '/' url.data)
  decide (3 ≤ parts.length) &&
  decide (parts.getD (parts.length - 2) [] = "recipes".data) &&
  (match (parts.getLastD []).head? with
   | some c => c.isDigit
   | none => false)

/-- First-occurrence deduplication by URL, per C7's wording. -/
def claimKeptGo : List RawLink → List String → List RawLink
  | [], _ => []
  | it :: rest, seen =>
    if it.url.getD "" ∈ seen then claimKeptGo rest seen
    else it :: claimKeptGo rest (seen ++ [it.url.getD ""])

/-- C7's wording of the kept-link list: filter by the structural
predicate, then keep only the first occurrence of each URL. -/
def claimKept (items : List RawLink) : List RawLink :=
  claimKeptGo (items.filter (fun it =>
    match it.url with
    | some u => claimValidRecipeUrl u
    | none => false)) []

theorem valid_parts_eq (parts : List (List Char)) :
    (if parts.length < 3 then false
     else
       match parts.reverse with
       | last :: secondLast :: _ =>
         if secondLast ≠ "recipes".data then false
         else
           match last with
           | c :: _ => c.isDigit
           | [] => false
       | _ => false) =
    (decide (3 ≤ parts.length) &&
     decide (parts.getD (parts.length - 2) [] = "recipes".data) &&
     (match (parts.getLastD []).head? with
      | some c => c.isDigit
      | none => false)) := by
  by_cases hlen : parts.length < 3
  · rw [if_pos hlen]
    have h3 : decide (3 ≤ parts.length) = false := by simpa using hlen
    simp [h3]
  · rw [if_neg hlen]
    push_neg at hlen
    match hrev : parts.reverse with
    | [] =>
      have : parts.length = 0 := by simpa using congrArg List.length hrev
      omega
    | [a] =>
      have : parts.length = 1 := by simpa using congrArg List.length hrev
      omega
    | a :: b :: t =>
      have hlast : parts.getLastD [] = a := by
        rw [List.getLastD_eq_getLast?, ← List.head?_reverse, hrev]
        rfl
      have hsecond : parts.getD (parts.length - 2) [] = b := by
        have hi : 1 < parts.length := by omega
        have hrw := @List.getElem?_reverse _ parts 1 (by simpa using hi)
        rw [hrev] at hrw
        simp only [List.getElem?_cons_succ, List.getElem?_cons_zero] at hrw
        rw [List.getD_eq_getElem?_getD]
        have harith : parts.length - 1 - 1 = parts.length - 2 := by omega
        rw [harith] at hrw
        rw [← hrw]
        rfl
      have h3 : decide (3 ≤ parts.length) = true := by simpa using hlen
      rw [hlast, hsecond, h3]
      by_cases hb : b = "recipes".data
      · cases a with
        | nil => simp [hb]
        | cons c rest => simp [hb]
      · simp [hb]

theorem is_valid_recipe_url_eq_claim (u : String) :
    _is_valid_recipe_url u = claimValidRecipeUrl u :=
  valid_parts_eq (pySplitChar '/' (stripChar '/' u.data))

theorem valid_url_ne_empty (u : String) (h : _is_valid_recipe_url u = true) :
    u ≠ "" := by
  intro e
  subst e
  exact absurd h (by decide)

theorem scrape_recipes_go_eq (items : List RawLink) :
    ∀ (seen : List String) (acc : List Recipe),
    _scrape_recipes_go items seen acc =
      acc ++ (List.enumFrom acc.length
        (claimKeptGo (items.filter linkKeepable) seen)).map
          (fun p => { index := p.1, name := firstLineName p.2.text }) := by
  induction items with
  | nil =>
    intro seen acc
    simp [_scrape_recipes_go, claimKeptGo]
  | cons it rest ih =>
    intro seen acc
    cases hu : it.url with
    | none =>
      have hkeep : linkKeepable it = false := by simp [linkKeepable, hu]
      simp only [_scrape_recipes_go, hu, List.filter_cons, hkeep,
        Bool.false_eq_true, if_false]
      exact ih seen acc
    | some u =>
      by_cases hval : _is_valid_recipe_url u = true
      · have hkeep : linkKeepable it = true := by simp [linkKeepable, hu, hval]
        have hne : u ≠ "" := valid_url_ne_empty u hval
        have hget : it.url.getD "" = u := by simp [hu]
        by_cases hseen : u ∈ seen
        · simp only [_scrape_recipes_go, hu, List.filter_cons, hkeep, if_true,
            claimKeptGo, Option.getD_some]
          rw [if_pos (Or.inr hseen), if_pos hseen]
          exact ih seen acc
        · have hcond : ¬(u = "" ∨ u ∈ seen) := by
            rintro (h1 | h2)
            · exact hne h1
            · exact hseen h2
          simp only [_scrape_recipes_go, hu, List.filter_cons, hkeep, if_true,
            claimKeptGo, Option.getD_some]
          rw [if_neg hcond, if_neg (by simp [hval]), if_neg hseen, ih]
          simp [List.enumFrom_cons]
      · have hkeep : linkKeepable it = false := by
          simp [linkKeepable, hu]
          simpa using hval
        have hval2 : _is_valid_recipe_url u = false := by
          simpa using hval
        simp only [_scrape_recipes_go, hu, List.filter_cons, hkeep,
          Bool.false_eq_true, if_false]
        by_cases hcond : u = "" ∨ u ∈ seen
        · rw [if_pos hcond]
          exact ih seen acc
        · rw [if_neg hcond, if_pos hval2]
          exact ih seen acc

/-- The function `_scrape_recipes` keeps exactly the first occurrence of each valid
recipe URL, in order, renumbered from 0. -/
theorem scrape_recipes_eq (items : List RawLink) :
    _scrape_recipes items =
      ((claimKept items).enum).map
        (fun p => { index := p.1, name := firstLineName p.2.text }) := by
  rw [_scrape_recipes, scrape_recipes_go_eq]
  have hfe : items.filter linkKeepable = items.filter (fun it =>
      match it.url with
      | some u => claimValidRecipeUrl u
      | none => false) := by
    apply List.filter_congr
    intro it _
    cases hu : it.url <;>
      simp [linkKeepable, hu, is_valid_recipe_url_eq_claim]
  rw [hfe]
  rfl

/-- C6: extraction skips a card that fails required-field extraction
(a falsy name / a missing href) without aborting, and assigns the
surviving records the consecutive indices 0, 1, 2, ... in output order
(the i-th surviving record has index i); extraction is a pure function,
so re-running it on the same raw list gives identical output. Stated
for both `_scrape_search_results` and `_scrape_recipes`. -/
theorem C6_extraction_skip_and_renumber
    (items : List RawArticle) (ritems : List RawLink) :
    _scrape_search_results items =
      ((items.filter (fun it => pyTruthy it.name)).enum).map
        (fun p => mkSearchResult p.1 p.2) ∧
    (∀ i (h : i < (_scrape_search_results items).length),
      ((_scrape_search_results items).get ⟨i, h⟩).index = i) ∧
    (∀ j (h : j < (_scrape_recipes ritems).length),
      ((_scrape_recipes ritems).get ⟨j, h⟩).index = j) ∧
    _scrape_search_results items = _scrape_search_results items ∧
    _scrape_recipes ritems = _scrape_recipes ritems := by
  refine ⟨scrape_search_eq items, ?_, ?_, rfl, rfl⟩
  · intro i h
    have he := scrape_search_eq items
    have h2 : i < (((items.filter (fun it => pyTruthy it.name)).enum).map
        (fun p => mkSearchResult p.1 p.2)).length := by
      rw [← he]
      exact h
    have hg : (_scrape_search_results items).get ⟨i, h⟩ =
        (((items.filter (fun it => pyTruthy it.name)).enum).map
          (fun p => mkSearchResult p.1 p.2))[i] := by
      rw [List.get_eq_getElem]
      exact List.getElem_of_eq he h
    rw [hg, List.getElem_map, List.getElem_enum]
    rfl
  · intro j h
    have he := scrape_recipes_eq ritems
    have h2 : j < (((claimKept ritems).enum).map
        (fun p => ({ index := p.1, name := firstLineName p.2.text} :
          Recipe))).length := by
      rw [← he]
      exact h
    have hg : (_scrape_recipes ritems).get ⟨j, h⟩ =
        (((claimKept ritems).enum).map
          (fun p => ({ index := p.1, name := firstLineName p.2.text} :
            Recipe)))[j] := by
      rw [List.get_eq_getElem]
      exact List.getElem_of_eq he h
    rw [hg, List.getElem_map, List.getElem_enum]

/-- Witness for C6: on a 3-card snapshot whose middle card has no name,
the survivors get indices 0 and 1 (the second survivor's index is 1, not
its DOM position 2). -/
theorem C6_extraction_skip_and_renumber_witness :
    ((_scrape_search_results
      [⟨some "Melk", none, none, none⟩, ⟨none, none, none, none⟩,
       ⟨some "Brød", none, none, none⟩]).get ⟨1, by decide⟩).index = 1 :=
  (C6_extraction_skip_and_renumber
    [⟨some "Melk", none, none, none⟩, ⟨none, none, none, none⟩,
     ⟨some "Brød", none, none, none⟩] []).2.1 1 (by decide)

/-- C7: `_scrape_recipes` keeps a link if and only if it survives
first-occurrence deduplication by URL and satisfies the structural
predicate, and the source predicate `_is_valid_recipe_url` coincides
with the claim's description (at least 3 segments after stripping
slashes and splitting on `/`, second-to-last segment exactly `recipes`,
final segment starting with a digit — so any link whose leading segment
after `recipes/` does not start with a digit is excluded). -/
theorem C7_recipe_link_filter (items : List RawLink) (u : String) :
    _scrape_recipes items =
      ((claimKept items).enum).map
        (fun p => { index := p.1, name := firstLineName p.2.text }) ∧
    _is_valid_recipe_url u = claimValidRecipeUrl u :=
  ⟨scrape_recipes_eq items, is_valid_recipe_url_eq_claim u⟩

/-! ## Recipe index resolution (`get_recipe_url` 551-574 and the
duplicated loop in `add_recipe_by_index` 641-667) -/

/-- The resolution loop of `get_recipe_url`: walk the links, skip falsy,
seen, and invalid URLs, return the URL once the running count of valid
unseen links reaches `index`, else count it as seen. -/
def get_recipe_url_go :
    List (Option String) → List String → ℤ → ℤ → Option String
  | [], _, _, _ => none
  | l :: rest, seen, cnt, index =>
    match l with
    | none => get_recipe_url_go rest seen cnt index
    | some u =>
      if u = "" ∨ u ∈ seen then get_recipe_url_go rest seen cnt index
      else if _is_valid_recipe_url u = false then
        get_recipe_url_go rest seen cnt index
      else if cnt = index then some u
      else get_recipe_url_go rest (seen ++ [u]) (cnt + 1) index

/-- The `OdaClient.BASE_URL` constant. -/
def BASE_URL : String := "https://oda.com/no"

/-- The string `BASE_URL.replace("/no", "")` as computed in both resolution
functions. -/
def baseNoLocale : String := String.mk (replaceL "/no".data [] BASE_URL.data)

/-- Embedding of `get_recipe_url`: the resolved relative URL prefixed
with the locale-stripped base URL, or `None`. (The source's final
`if target_url:` truthiness test coincides with the `Option` match,
since a URL kept by the loop passed the validity check and is
nonempty.) -/
def get_recipe_url (links : List (Option String)) (index : ℤ) :
    Option String :=
  (get_recipe_url_go links [] 0 index).map (fun u => baseNoLocale ++ u)

/-- The resolution loop duplicated verbatim inside
`add_recipe_by_index`. -/
def add_recipe_by_index_go :
    List (Option String) → List String → ℤ → ℤ → Option String
  | [], _, _, _ => none
  | l :: rest, seen, cnt, index =>
    match l with
    | none => add_recipe_by_index_go rest seen cnt index
    | some u =>
      if u = "" ∨ u ∈ seen then add_recipe_by_index_go rest seen cnt index
      else if _is_valid_recipe_url u = false then
        add_recipe_by_index_go rest seen cnt index
      else if cnt = index then some u
      else add_recipe_by_index_go rest (seen ++ [u]) (cnt + 1) index

/-- The target URL `add_recipe_by_index` navigates to (`None` models the
`return False` branch; the subsequent navigation and
`add_current_recipe` are browser effects outside the embedding). -/
def add_recipe_by_index_target (links : List (Option String)) (index : ℤ) :
    Option String :=
  (add_recipe_by_index_go links [] 0 index).map (fun u => baseNoLocale ++ u)

/-- The ordered list of URLs that survive the shared skip logic
(first-occurrence, valid, nonempty), used to characterize both loops. -/
def keptUrlsGo : List (Option String) → List String → List String
  | [], _ => []
  | l :: rest, seen =>
    match l with
    | none => keptUrlsGo rest seen
    | some u =>
      if u = "" ∨ u ∈ seen then keptUrlsGo rest seen
      else if _is_valid_recipe_url u = false then keptUrlsGo rest seen
      else u :: keptUrlsGo rest (seen ++ [u])

/-- The kept URLs of a link list. -/
def keptUrls (links : List (Option String)) : List String :=
  keptUrlsGo links []

theorem add_go_eq_get_go (index : ℤ) (links : List (Option String)) :
    ∀ (seen : List String) (cnt : ℤ),
    add_recipe_by_index_go links seen cnt index =
      get_recipe_url_go links seen cnt index := by
  induction links with
  | nil => intro seen cnt; rfl
  | cons l rest ih =>
    intro seen cnt
    cases l with
    | none =>
      simp only [add_recipe_by_index_go, get_recipe_url_go]
      exact ih seen cnt
    | some u =>
      simp only [add_recipe_by_index_go, get_recipe_url_go]
      split_ifs with h1 h2 h3
      · exact ih seen cnt
      · exact ih seen cnt
      · rfl
      · exact ih (seen ++ [u]) (cnt + 1)

theorem get_go_eq_kept (links : List (Option String)) :
    ∀ (seen : List String) (cnt index : ℤ),
    get_recipe_url_go links seen cnt index =
      if index < cnt then none
      else (keptUrlsGo links seen)[(index - cnt).toNat]? := by
  induction links with
  | nil =>
    intro seen cnt index
    by_cases h : index < cnt <;> simp [get_recipe_url_go, keptUrlsGo, h]
  | cons l rest ih =>
    intro seen cnt index
    cases l with
    | none =>
      simp only [get_recipe_url_go, keptUrlsGo]
      exact ih seen cnt index
    | some u =>
      simp only [get_recipe_url_go, keptUrlsGo]
      by_cases h1 : u = "" ∨ u ∈ seen
      · rw [if_pos h1, if_pos h1]
        exact ih seen cnt index
      · rw [if_neg h1, if_neg h1]
        by_cases h2 : _is_valid_recipe_url u = false
        · rw [if_pos h2, if_pos h2]
          exact ih seen cnt index
        · rw [if_neg h2, if_neg h2]
          by_cases h3 : cnt = index
          · subst h3
            rw [if_pos rfl, if_neg (by omega)]
            simp
          · rw [if_neg h3, ih (seen ++ [u]) (cnt + 1) index]
            by_cases h4 : index < cnt
            · rw [if_pos (by omega), if_pos h4]
            · rw [if_neg (by omega), if_neg h4]
              have hn : (index - cnt).toNat = (index - (cnt + 1)).toNat + 1 := by
                omega
              rw [hn, List.getElem?_cons_succ]

theorem filter_keepable_eq (items : List RawLink) :
    items.filter linkKeepable = items.filter (fun it =>
      match it.url with
      | some u => claimValidRecipeUrl u
      | none => false) := by
  apply List.filter_congr
  intro it _
  cases hu : it.url <;>
    simp [linkKeepable, hu, is_valid_recipe_url_eq_claim]

theorem keptUrlsGo_eq_claim (items : List RawLink) :
    ∀ (seen : List String),
    keptUrlsGo (items.map RawLink.url) seen =
      (claimKeptGo (items.filter linkKeepable) seen).map
        (fun it => it.url.getD "") := by
  induction items with
  | nil => intro seen; rfl
  | cons it rest ih =>
    intro seen
    cases hu : it.url with
    | none =>
      have hkeep : linkKeepable it = false := by simp [linkKeepable, hu]
      simp only [List.map_cons, hu, keptUrlsGo, List.filter_cons, hkeep,
        Bool.false_eq_true, if_false]
      exact ih seen
    | some u =>
      by_cases hval : _is_valid_recipe_url u = true
      · have hkeep : linkKeepable it = true := by simp [linkKeepable, hu, hval]
        have hne : u ≠ "" := valid_url_ne_empty u hval
        by_cases hseen : u ∈ seen
        · simp only [List.map_cons, hu, keptUrlsGo, List.filter_cons, hkeep,
            if_true, claimKeptGo, Option.getD_some]
          rw [if_pos (Or.inr hseen), if_pos hseen]
          exact ih seen
        · have hcond : ¬(u = "" ∨ u ∈ seen) := by
            rintro (ha | hb)
            · exact hne ha
            · exact hseen hb
          simp only [List.map_cons, hu, keptUrlsGo, List.filter_cons, hkeep,
            if_true, claimKeptGo, Option.getD_some]
          rw [if_neg hcond, if_neg (by simp [hval]), if_neg hseen, ih]
          simp [hu]
      · have hkeep : linkKeepable it = false := by
          simp [linkKeepable, hu]
          simpa using hval
        have hval2 : _is_valid_recipe_url u = false := by simpa using hval
        simp only [List.map_cons, hu, keptUrlsGo, List.filter_cons, hkeep,
          Bool.false_eq_true, if_false]
        by_cases hcond : u = "" ∨ u ∈ seen
        · rw [if_pos hcond]
          exact ih seen
        · rw [if_neg hcond, if_pos hval2]
          exact ih seen

/-- C9 (implicit): the two independent enumerations of recipe links
agree. For every link list and every non-negative index `i`,
`get_recipe_url` (and the identical loop in `add_recipe_by_index`)
returns the absolute URL of exactly the link that `_scrape_recipes`
keeps at index `i` (first-occurrence deduplication plus the same
validity predicate), and returns `None` exactly when `i` is at least
the number of recipes `_scrape_recipes` produces from the same links. -/
theorem C9_recipe_enumeration_agreement (items : List RawLink) (i : ℕ) :
    get_recipe_url (items.map RawLink.url) (i : ℤ) =
      ((claimKept items)[i]?).map
        (fun it => baseNoLocale ++ it.url.getD "") ∧
    add_recipe_by_index_target (items.map RawLink.url) (i : ℤ) =
      get_recipe_url (items.map RawLink.url) (i : ℤ) ∧
    (_scrape_recipes items).length = (claimKept items).length ∧
    (get_recipe_url (items.map RawLink.url) (i : ℤ) = none ↔
      (_scrape_recipes items).length ≤ i) := by
  have hkept : keptUrls (items.map RawLink.url) =
      (claimKept items).map (fun it => it.url.getD "") := by
    rw [keptUrls, keptUrlsGo_eq_claim, claimKept, ← filter_keepable_eq]
  have hlen : (_scrape_recipes items).length = (claimKept items).length := by
    rw [scrape_recipes_eq]
    simp
  have hget : get_recipe_url (items.map RawLink.url) (i : ℤ) =
      ((keptUrls (items.map RawLink.url))[i]?).map
        (fun u => baseNoLocale ++ u) := by
    rw [get_recipe_url, get_go_eq_kept, if_neg (by omega)]
    have : ((i : ℤ) - 0).toNat = i := by omega
    rw [this]
    rfl
  refine ⟨?_, ?_, hlen, ?_⟩
  · rw [hget, hkept, List.getElem?_map, Option.map_map]
    rfl
  · rw [add_recipe_by_index_target, get_recipe_url,
      add_go_eq_get_go (i : ℤ) (items.map RawLink.url) [] 0]
  · rw [hget, hlen]
    constructor
    · intro h
      have h0 : (keptUrls (items.map RawLink.url))[i]? = none := by
        cases hc : (keptUrls (items.map RawLink.url))[i]? with
        | none => rfl
        | some v => rw [hc] at h; exact absurd h (by simp)
      have := List.getElem?_eq_none_iff.mp h0
      rw [hkept] at this
      simpa using this
    · intro h
      have h0 : (keptUrls (items.map RawLink.url))[i]? = none := by
        apply List.getElem?_eq_none_iff.mpr
        rw [hkept]
        simpa using h
      rw [h0]
      rfl

/-! ## Recipe detail extraction from JSON-LD (`_parse_recipe_json_ld`,
`_find_recipe_in_json_ld`, `_create_recipe_detail`, tools.py 588-639) -/

/-- A decoded JSON value as produced by `json.loads` (numbers collapsed
to exact rationals). -/
inductive PyJson where
  | null
  | bool (b : Bool)
  | num (q : ℚ)
  | str (s : String)
  | arr (items : List PyJson)
  | obj (fields : List (String × PyJson))

/-- Model of `dict.get` on a decoded object: `json.loads` keeps the last
occurrence of a duplicated key, so look up from the right. -/
def dictGet (fields : List (String × PyJson)) (k : String) : Option PyJson :=
  (fields.reverse.find? (fun p => p.1 == k)).map (fun p => p.2)

/-- The Python comparison `d.get("@type") == "Recipe"`: true exactly
when the key holds that string (a missing key or non-string value
compares unequal). -/
def jsonTypeIsRecipe (d : List (String × PyJson)) : Bool :=
  match dictGet d "@type" with
  | some (.str s) => s == "Recipe"
  | _ => false

theorem jsonTypeIsRecipe_iff (d : List (String × PyJson)) :
    jsonTypeIsRecipe d = true ↔
      dictGet d "@type" = some (.str "Recipe") := by
  unfold jsonTypeIsRecipe
  cases hm : dictGet d "@type" with
  | none => simp
  | some v =>
    cases v with
    | str s => simp [PyJson.str.injEq]
    | null => simp
    | bool b => simp
    | num q => simp
    | arr l => simp
    | obj o => simp

/-- First-occurrence key order of a Python dict (insertion order, with a
later duplicate overwriting the value but keeping the position). -/
def dedupKeysGo : List String → List String → List String
  | [], _ => []
  | k :: rest, seen =>
    if k ∈ seen then dedupKeysGo rest seen
    else k :: dedupKeysGo rest (seen ++ [k])

/-- Python `str()` of a decoded JSON value. The claims only exercise the
string case; numeric and container renderings are abbreviated models of
CPython's repr. -/
def pyStr : PyJson → String
  | .str s => s
  | .null => "None"
  | .bool true => "True"
  | .bool false => "False"
  | .num q => toString q
  | .arr _ => "[...]"
  | .obj _ => "\x7b...\x7d"

/-- Python iteration over a decoded JSON value: lists yield elements,
strings yield one-character strings, dicts yield their keys; other
values raise `TypeError`. -/
def pyIter : PyJson → Except PyErr (List PyJson)
  | .arr l => .ok l
  | .str s => .ok (s.data.map (fun c => .str (String.mk [c])))
  | .obj fields => .ok ((dedupKeysGo (fields.map (fun p => p.1)) []).map .str)
  | _ => .error .typeError

/-- The `RecipeDetail` dataclass. The dataclass declares
`instructions: list[str]`, but the loop inserts `step.get("text", "")`
unconverted, so the runtime elements are decoded JSON values; the model
keeps them as such (strings in well-formed data). -/
structure RecipeDetail where
  name : String
  description : String
  ingredients : List String
  instructions : List PyJson
  image_url : Option String := none

/-- The `@graph` scan inside `_find_recipe_in_json_ld`: each element
must be a dict (`item.get` on anything else raises `AttributeError`,
which the caller does not suppress); the first one typed `Recipe` is
returned, and a graph without one yields `None` via the trailing
`return None`. -/
def _find_recipe_in_graph :
    List PyJson → Except PyErr (Option (List (String × PyJson)))
  | [] => .ok none
  | item :: rest =>
    match item with
    | .obj d =>
      if jsonTypeIsRecipe d then .ok (some d)
      else _find_recipe_in_graph rest
    | _ => .error .attributeError

/-- Embedding of `_find_recipe_in_json_ld`: a dict typed `Recipe` is
returned as-is; otherwise a dict with an `@graph` key is scanned
(iterating a non-list `@graph` raises unless it is empty-iterable);
anything else yields `None`. -/
def _find_recipe_in_json_ld (data : PyJson) :
    Except PyErr (Option (List (String × PyJson))) :=
  match data with
  | .obj d =>
    if jsonTypeIsRecipe d then .ok (some d)
    else
      match dictGet d "@graph" with
      | some (.arr items) => _find_recipe_in_graph items
      | some (.str s) => if s = "" then .ok none else .error .attributeError
      | some (.obj fields) =>
        if fields.isEmpty then .ok none else .error .attributeError
      | some _ => .error .typeError
      | none => .ok none
  | _ => .ok none

/-- Embedding of `_create_recipe_detail`: map the fields of the located
structured-data dict into the typed record. -/
def _create_recipe_detail (d : List (String × PyJson)) :
    Except PyErr RecipeDetail :=
  let image := dictGet d "image"
  let image_url : Option String :=
    match image with
    | some (.arr (first :: _)) =>
      match first with
      | .str s => some s
      | _ => none
    | some (.str s) => some s
    | _ => none
  match pyIter ((dictGet d "recipeIngredient").getD (.arr [])) with
  | .error e => .error e
  | .ok ing =>
    match pyIter ((dictGet d "recipeInstructions").getD (.arr [])) with
    | .error e => .error e
    | .ok steps =>
      .ok { name := pyStr ((dictGet d "name").getD (.str "Unknown")),
            description := pyStr ((dictGet d "description").getD (.str "")),
            ingredients := ing.map pyStr,
            instructions := steps.map (fun step =>
              match step with
              | .obj o => (dictGet o "text").getD (.str "")
              | other => .str (pyStr other)),
            image_url := image_url }

/-- The selection loop of `_parse_recipe_json_ld`: the `loads` parameter
models `json.loads` (with `none` for a suppressed `JSONDecodeError`);
scripts with falsy content are skipped; the first truthy found dict
stops the scan, and exhausting the scripts hits the hard failure. -/
def _parse_recipe_json_ld_loop (loads : String → Option PyJson) :
    List (Option String) → Except PyErr (List (String × PyJson))
  | [] => .error (.valueError "Could not find Recipe JSON-LD data on page")
  | content :: rest =>
    match content with
    | none => _parse_recipe_json_ld_loop loads rest
    | some s =>
      if s = "" then _parse_recipe_json_ld_loop loads rest
      else
        match loads s with
        | none => _parse_recipe_json_ld_loop loads rest
        | some data =>
          match _find_recipe_in_json_ld data with
          | .error e => .error e
          | .ok none => _parse_recipe_json_ld_loop loads rest
          | .ok (some d) =>
            if d.isEmpty then _parse_recipe_json_ld_loop loads rest
            else .ok d

/-- Embedding of `_parse_recipe_json_ld`. -/
def _parse_recipe_json_ld (loads : String → Option PyJson)
    (scripts : List (Option String)) : Except PyErr RecipeDetail :=
  match _parse_recipe_json_ld_loop loads scripts with
  | .error e => .error e
  | .ok d => _create_recipe_detail d

theorem find_in_graph_finds (gpre gpost : List PyJson)
    (r : List (String × PyJson))
    (hpretype : ∀ o, PyJson.obj o ∈ gpre →
      dictGet o "@type" ≠ some (.str "Recipe"))
    (hpreobj : ∀ item ∈ gpre, ∃ o, item = PyJson.obj o)
    (hr : jsonTypeIsRecipe r = true) :
    _find_recipe_in_graph (gpre ++ .obj r :: gpost) = .ok (some r) := by
  induction gpre with
  | nil =>
    simp only [List.nil_append, _find_recipe_in_graph]
    rw [if_pos hr]
  | cons item rest ih =>
    obtain ⟨o, rfl⟩ := hpreobj item (List.mem_cons_self _ _)
    have hno : ¬(jsonTypeIsRecipe o = true) := fun ht =>
      hpretype o (List.mem_cons_self _ _) ((jsonTypeIsRecipe_iff o).mp ht)
    simp only [List.cons_append, _find_recipe_in_graph]
    rw [if_neg hno]
    exact ih (fun o2 hm => hpretype o2 (List.mem_cons_of_mem _ hm))
      (fun it hm => hpreobj it (List.mem_cons_of_mem _ hm))

theorem parse_json_ld_loop_all_none (loads : String → Option PyJson)
    (scripts : List (Option String))
    (h : ∀ s data, some s ∈ scripts → s ≠ "" → loads s = some data →
      _find_recipe_in_json_ld data = .ok none) :
    _parse_recipe_json_ld_loop loads scripts =
      .error (.valueError "Could not find Recipe JSON-LD data on page") := by
  induction scripts with
  | nil => rfl
  | cons content rest ih =>
    have hrest : ∀ s data, some s ∈ rest → s ≠ "" → loads s = some data →
        _find_recipe_in_json_ld data = .ok none := fun s data hm =>
      h s data (List.mem_cons_of_mem content hm)
    cases content with
    | none =>
      simp only [_parse_recipe_json_ld_loop]
      exact ih hrest
    | some s =>
      simp only [_parse_recipe_json_ld_loop]
      by_cases hs : s = ""
      · rw [if_pos hs]
        exact ih hrest
      · rw [if_neg hs]
        split
        · exact ih hrest
        next data heq =>
          rw [h s data (List.mem_cons_self _ _) hs heq]
          exact ih hrest

theorem parse_json_ld_loop_finds (loads : String → Option PyJson)
    (pre : List (Option String)) (post : List (Option String)) (s : String)
    (data : PyJson) (d : List (String × PyJson))
    (hpre : ∀ c dd, some c ∈ pre → c ≠ "" → loads c = some dd →
      _find_recipe_in_json_ld dd = .ok none)
    (hs : s ≠ "") (hl : loads s = some data)
    (hf : _find_recipe_in_json_ld data = .ok (some d)) (hd : d ≠ []) :
    _parse_recipe_json_ld_loop loads (pre ++ some s :: post) = .ok d := by
  induction pre with
  | nil =>
    simp only [List.nil_append, _parse_recipe_json_ld_loop]
    rw [if_neg hs]
    split
    next heq => rw [hl] at heq; cases heq
    next data2 heq =>
      rw [hl] at heq
      obtain rfl : data = data2 := Option.some.inj heq
      split
      next e heq2 => rw [hf] at heq2; cases heq2
      next heq2 => rw [hf] at heq2; cases heq2
      next d2 heq2 =>
        rw [hf] at heq2
        obtain rfl : d = d2 := Option.some.inj (Except.ok.inj heq2)
        rw [if_neg (by simpa using hd)]
  | cons content rest ih =>
    have hrest : ∀ c dd, some c ∈ rest → c ≠ "" → loads c = some dd →
        _find_recipe_in_json_ld dd = .ok none := fun c dd hm =>
      hpre c dd (List.mem_cons_of_mem content hm)
    cases content with
    | none =>
      simp only [List.cons_append, _parse_recipe_json_ld_loop]
      exact ih hrest
    | some c =>
      simp only [List.cons_append, _parse_recipe_json_ld_loop]
      by_cases hc : c = ""
      · rw [if_pos hc]
        exact ih hrest
      · rw [if_neg hc]
        split
        · exact ih hrest
        next dd heq =>
          rw [hpre c dd (List.mem_cons_self _ _) hc heq]
          exact ih hrest

/-- C8: recipe-detail extraction selects the first parseable
structured-data block that is itself typed `Recipe` or contains such an
object nested inside an `@graph` wrapper, and maps its fields into the
`RecipeDetail` record; if no block contains a Recipe object, the call
raises a hard `ValueError` rather than returning a default record. -/
theorem C8_recipe_json_ld (loads : String → Option PyJson)
    (scripts : List (Option String)) :
    ((∀ s data, some s ∈ scripts → s ≠ "" → loads s = some data →
        _find_recipe_in_json_ld data = .ok none) →
      _parse_recipe_json_ld loads scripts =
        .error (.valueError "Could not find Recipe JSON-LD data on page")) ∧
    (∀ (pre post : List (Option String)) (s : String) (data : PyJson)
        (d : List (String × PyJson)),
      scripts = pre ++ some s :: post →
      (∀ c dd, some c ∈ pre → c ≠ "" → loads c = some dd →
        _find_recipe_in_json_ld dd = .ok none) →
      s ≠ "" → loads s = some data →
      _find_recipe_in_json_ld data = .ok (some d) → d ≠ [] →
      _parse_recipe_json_ld loads scripts = _create_recipe_detail d) ∧
    (∀ fields, dictGet fields "@type" = some (.str "Recipe") →
      _find_recipe_in_json_ld (.obj fields) = .ok (some fields)) ∧
    (∀ fields gpre gpost r,
      dictGet fields "@type" ≠ some (.str "Recipe") →
      dictGet fields "@graph" = some (.arr (gpre ++ .obj r :: gpost)) →
      (∀ o, PyJson.obj o ∈ gpre →
        dictGet o "@type" ≠ some (.str "Recipe")) →
      (∀ item ∈ gpre, ∃ o, item = PyJson.obj o) →
      dictGet r "@type" = some (.str "Recipe") →
      _find_recipe_in_json_ld (.obj fields) = .ok (some r)) := by
  refine ⟨?_, ?_, ?_, ?_⟩
  · intro h
    rw [_parse_recipe_json_ld, parse_json_ld_loop_all_none loads scripts h]
  · intro pre post s data d hsc hpre hs hl hf hd
    rw [_parse_recipe_json_ld, hsc,
      parse_json_ld_loop_finds loads pre post s data d hpre hs hl hf hd]
  · intro fields h
    have ht : jsonTypeIsRecipe fields = true :=
      (jsonTypeIsRecipe_iff fields).mpr h
    simp [_find_recipe_in_json_ld, ht]
  · intro fields gpre gpost r hnot hgraph hpretype hpreobj hr
    have hnt : ¬(jsonTypeIsRecipe fields = true) := fun ht =>
      hnot ((jsonTypeIsRecipe_iff fields).mp ht)
    have hrt : jsonTypeIsRecipe r = true := (jsonTypeIsRecipe_iff r).mpr hr
    rw [_find_recipe_in_json_ld]
    rw [if_neg hnt, hgraph]
    exact find_in_graph_finds gpre gpost r hpretype hpreobj hrt

/-- Witness for C8: a page whose single script block parses to a dict
typed `Recipe` yields that recipe's detail record; the hypotheses of the
theorem's selection conjunct discharged at this concrete input. -/
theorem C8_recipe_json_ld_witness :
    _parse_recipe_json_ld
      (fun s => if s = "R" then
        some (.obj [("@type", PyJson.str "Recipe"),
          ("name", PyJson.str "Pizza")]) else none)
      [some "R"] =
      .ok ⟨"Pizza", "", [], [], none⟩ := by
  have h := (C8_recipe_json_ld
    (fun s => if s = "R" then
      some (.obj [("@type", PyJson.str "Recipe"),
        ("name", PyJson.str "Pizza")]) else none)
    [some "R"]).2.1 [] [] "R"
    (.obj [("@type", PyJson.str "Recipe"), ("name", PyJson.str "Pizza")])
    [("@type", PyJson.str "Recipe"), ("name", PyJson.str "Pizza")]
    rfl (fun c dd hc => absurd hc (by simp)) (by decide) rfl rfl (by simp)
  rw [h]
  rfl

end McpOda
